import Mathlib

/-!
Verification development for the `dimensions` tmux workspace manager.

The development shallowly embeds the program's data model and the operations
of its navigation/selection engine:

* `ConfigStore` embeds `src/dimension.rs` (the persisted configuration
  document: `Tab`, `Dimension`, `DimensionConfig`) together with the
  serde-derive (de)serialization semantics of those structs, modelled at the
  level of a JSON value tree (`Json`).
* `Core` embeds the state machine of `src/app.rs` (`App` and its
  operations), with the external tmux backend (`src/tmux.rs`) abstracted as
  an environment `TmuxEnv` of query answers and a trace of issued mutating
  commands (`Eff`), and the skim fuzzy matcher and the filesystem-backed
  path completer abstracted as oracle functions.
-/

namespace ConfigStore

/-- JSON value tree: the shape of the persisted configuration document
(`serde_json`). Numbers are irrelevant to this schema and kept as `Int`. -/
inductive Json where
  | null : Json
  | bool (b : Bool) : Json
  | num (n : Int) : Json
  | str (s : String) : Json
  | arr (xs : List Json) : Json
  | obj (fields : List (String × Json)) : Json

/-- From `src/dimension.rs`: a single tab (tmux window) template.
`command` is an `Option<String>`. -/
structure Tab where
  name : String
  command : Option String
deriving DecidableEq, Repr

/-- From `src/dimension.rs`: a dimension. The `tabs` field has no
`serde(default)` attribute; `collapsed` does. -/
structure Dimension where
  name : String
  tabs : List Tab
  collapsed : Bool
deriving DecidableEq, Repr

/-- From `src/dimension.rs`: the whole persisted document.
`active_dimension` carries `serde(default)`. -/
structure DimensionConfig where
  dimensions : List Dimension
  active_dimension : Option String
deriving DecidableEq, Repr

/-- Field lookup in a JSON object (first occurrence of the key). -/
def lookupField (fields : List (String × Json)) (key : String) : Option Json :=
  (fields.find? (fun f => f.1 == key)).map (fun f => f.2)

/-- Serde semantics of a required `String` field: absent or non-string is a
structural parse error. -/
def reqStringField (fields : List (String × Json)) (key : String) : Except String String :=
  match lookupField fields key with
  | some (Json.str s) => Except.ok s
  | some _ => Except.error ("invalid type for field " ++ key)
  | none => Except.error ("missing field " ++ key)

/-- Serde semantics of an `Option<String>` field: an absent field or an
explicit `null` is `None`. -/
def optStringField (fields : List (String × Json)) (key : String) :
    Except String (Option String) :=
  match lookupField fields key with
  | some (Json.str s) => Except.ok (some s)
  | some Json.null => Except.ok none
  | some _ => Except.error ("invalid type for field " ++ key)
  | none => Except.ok none

/-- Serde semantics of a `bool` field carrying `serde(default)`: absent
means `false`. -/
def defaultBoolField (fields : List (String × Json)) (key : String) :
    Except String Bool :=
  match lookupField fields key with
  | some (Json.bool b) => Except.ok b
  | some _ => Except.error ("invalid type for field " ++ key)
  | none => Except.ok false

/-- Deserialization of `Tab` as derived in `src/dimension.rs`: `name`
required, `command` an `Option<String>`. -/
def Tab.fromJson : Json → Except String Tab
  | Json.obj fields => do
    let name ← reqStringField fields "name"
    let command ← optStringField fields "command"
    Except.ok { name := name, command := command }
  | _ => Except.error "expected object for Tab"

/-- Deserialization of a `Vec<Tab>` element-wise, failing on the first
malformed element (serde `Vec` semantics). -/
def tabsFromJson : List Json → Except String (List Tab)
  | [] => Except.ok []
  | j :: rest => do
    let t ← Tab.fromJson j
    let ts ← tabsFromJson rest
    Except.ok (t :: ts)

/-- Deserialization of `Dimension` as derived in `src/dimension.rs`:
`name` and `tabs` are required fields (no `serde(default)` on `tabs`),
`collapsed` defaults to `false` when absent. -/
def Dimension.fromJson : Json → Except String Dimension
  | Json.obj fields => do
    let name ← reqStringField fields "name"
    let tabsJson ←
      match lookupField fields "tabs" with
      | some (Json.arr xs) => Except.ok xs
      | some _ => Except.error "invalid type for field tabs"
      | none => Except.error "missing field tabs"
    let tabs ← tabsFromJson tabsJson
    let collapsed ← defaultBoolField fields "collapsed"
    Except.ok { name := name, tabs := tabs, collapsed := collapsed }
  | _ => Except.error "expected object for Dimension"

/-- Deserialization of a `Vec<Dimension>` element-wise. -/
def dimensionsFromJson : List Json → Except String (List Dimension)
  | [] => Except.ok []
  | j :: rest => do
    let d ← Dimension.fromJson j
    let ds ← dimensionsFromJson rest
    Except.ok (d :: ds)

/-- Deserialization of `DimensionConfig` as derived in `src/dimension.rs`:
`dimensions` required, `active_dimension` defaults to `None` when absent. -/
def DimensionConfig.fromJson : Json → Except String DimensionConfig
  | Json.obj fields => do
    let dimsJson ←
      match lookupField fields "dimensions" with
      | some (Json.arr xs) => Except.ok xs
      | some _ => Except.error "invalid type for field dimensions"
      | none => Except.error "missing field dimensions"
    let dims ← dimensionsFromJson dimsJson
    let active ← optStringField fields "active_dimension"
    Except.ok { dimensions := dims, active_dimension := active }
  | _ => Except.error "expected object for DimensionConfig"

/-- Serialization of `Tab` (derived `Serialize`): `None` is written as
JSON `null`. -/
def Tab.toJson (t : Tab) : Json :=
  Json.obj [("name", Json.str t.name),
            ("command", match t.command with
                        | none => Json.null
                        | some c => Json.str c)]

/-- Serialization of `Dimension` (derived `Serialize`): every field is
written. -/
def Dimension.toJson (d : Dimension) : Json :=
  Json.obj [("name", Json.str d.name),
            ("tabs", Json.arr (d.tabs.map Tab.toJson)),
            ("collapsed", Json.bool d.collapsed)]

/-- Serialization of `DimensionConfig` (derived `Serialize`). -/
def DimensionConfig.toJson (c : DimensionConfig) : Json :=
  Json.obj [("dimensions", Json.arr (c.dimensions.map Dimension.toJson)),
            ("active_dimension", match c.active_dimension with
                                 | none => Json.null
                                 | some s => Json.str s)]

/-- From `DimensionConfig::load` in `src/dimension.rs`, modelled at the
JSON level: a missing file yields the default empty document; otherwise the
document is parsed, and a parse failure is a fatal error. -/
def load (file : Option Json) : Except String DimensionConfig :=
  match file with
  | none => Except.ok { dimensions := [], active_dimension := none }
  | some doc => DimensionConfig.fromJson doc

/-- From `DimensionConfig::save` in `src/dimension.rs`, modelled at the
JSON level: serializes the whole document. -/
def save (c : DimensionConfig) : Json :=
  DimensionConfig.toJson c

end ConfigStore

namespace Core

/-- Modelled from the spec: the final-revision `ConfiguredTab` template used
by `src/app.rs` (three-argument `Tab::new(name, command, working_dir)`) is
not present under `src/` — `src/dimension.rs` is an earlier revision of the
struct. Fields follow the data model of the spec: `name`, optional
`command`, optional `working_dir`. -/
structure Tab where
  name : String
  command : Option String
  working_dir : Option String
deriving DecidableEq, Repr

/-- Tab constructor as invoked by `src/app.rs` (`Tab::new`). -/
def Tab.new (name : String) (command : Option String) (working_dir : Option String) : Tab :=
  { name := name, command := command, working_dir := working_dir }

/-- Modelled from the spec: the final-revision `Dimension` struct used by
`src/app.rs` (`configured_tabs`, `base_dir`,
`Dimension::new_with_base_dir`) is not present under `src/`. Fields follow
the data model of the spec: unique `name`, ordered `configured_tabs`,
optional `base_dir`. -/
structure Dimension where
  name : String
  configured_tabs : List Tab
  base_dir : Option String
deriving DecidableEq, Repr

/-- Modelled from the spec: `Dimension::new_with_base_dir` as invoked by
`App::create_dimension` appends a new dimension "with no tabs" and the
given base directory. -/
def Dimension.new_with_base_dir (name : String) (base_dir : Option String) : Dimension :=
  { name := name, configured_tabs := [], base_dir := base_dir }

/-- From `Dimension::add_tab` in `src/dimension.rs`: push onto the tab
list. -/
def Dimension.add_tab (d : Dimension) (t : Tab) : Dimension :=
  { d with configured_tabs := d.configured_tabs ++ [t] }

/-- The persisted document as seen by `src/app.rs`: an ordered list of
dimensions. -/
structure DimensionConfig where
  dimensions : List Dimension
deriving DecidableEq, Repr

/-- From `DimensionConfig::get_dimension` in `src/dimension.rs`: find by
name. -/
def DimensionConfig.get_dimension (c : DimensionConfig) (name : String) : Option Dimension :=
  c.dimensions.find? (fun d => d.name == name)

/-- From `DimensionConfig::add_dimension` in `src/dimension.rs`: push. -/
def DimensionConfig.add_dimension (c : DimensionConfig) (d : Dimension) : DimensionConfig :=
  { c with dimensions := c.dimensions ++ [d] }

/-- From `DimensionConfig::remove_dimension` in `src/dimension.rs`: remove
the first dimension with the given name, returning it. -/
def DimensionConfig.remove_dimension (c : DimensionConfig) (name : String) :
    Option Dimension × DimensionConfig :=
  match c.dimensions.findIdx? (fun d => d.name == name) with
  | none => (none, c)
  | some pos => (c.dimensions.get? pos, { c with dimensions := c.dimensions.eraseIdx pos })

/-- The tmux backend abstracted as an environment of query answers: the
queries `Tmux::session_exists` and `Tmux::list_windows` (the latter as used
by `src/app.rs`, where errors are collapsed to an empty list via
`unwrap_or_default`), plus the startup probes used by `App::new`
(`is_inside_session`, `get_current_session().ok()`,
`get_current_window_index().ok()`). Each core operation queries any given
session name at most once per call site, so one environment per call is
fully general. -/
structure TmuxEnv where
  session_exists : String → Bool
  list_windows : String → List (Nat × String)
  is_inside : Bool
  current_session : Option String
  current_window : Option Nat

/-- Mutating commands issued to the external world by the core, recorded as
a trace. `saveConfig` stands for `App::save_config` (a full rewrite of the
persisted document); the rest are the tmux port's mutating commands. The
model has every external command succeed — the environment is the oracle of
query results — so the trace records exactly what the source would issue. -/
inductive Eff where
  | createSession (name : String) (dir : Option String) : Eff
  | renameWindow (session : String) (idx : Nat) (name : String) : Eff
  | newWindow (session : String) (name : String) (command : Option String)
      (dir : Option String) : Eff
  | sendKeys (session : String) (idx : Nat) (keys : String) : Eff
  | killSession (name : String) : Eff
  | killWindow (session : String) (idx : Nat) : Eff
  | saveConfig : Eff
deriving DecidableEq, Repr

/-- From `InputMode` in `src/app.rs`. -/
inductive InputMode where
  | Normal
  | CreatingDimension
  | CreatingDimensionDirectory
  | AddingTab
  | DeletingDimension
  | DeletingTab
  | Searching
deriving DecidableEq, Repr

/-- From `MatchType` in `src/app.rs`. -/
inductive MatchType where
  | DimensionOnly
  | TabOnly
  | Both
deriving DecidableEq, Repr

/-- From `SearchResult` in `src/app.rs`. Scores are `i64`; the values in
play are small, so `Int` is used. -/
structure SearchResult where
  dimension_index : Nat
  dimension_name : String
  tab_index : Nat
  tmux_window_index : Nat
  tab_name : String
  score : Int
  match_type : MatchType
deriving DecidableEq, Repr

/-- From `App` in `src/app.rs`: the state owned by the core. The
`update_rx`/`update_message` channel of the background version check is
out of scope (concurrency) and omitted. -/
structure App where
  config : DimensionConfig
  selected_dimension : Nat
  selected_tab : Option Nat
  input_mode : InputMode
  input_buffer : String
  search_query : String
  search_results : List SearchResult
  search_selected_index : Nat
  last_computed_query : String
  pre_search_dimension : Nat
  pre_search_tab : Option Nat
  message : Option String
  should_quit : Bool
  should_attach : Option String
  should_select_window : Option Nat
  should_detach : Bool
  current_session : Option String
  current_window : Option Nat
  pending_dimension_name : Option String
  completion_candidates : List String
  completion_index : Nat
  completion_base : String
deriving DecidableEq, Repr

/-- From `App::new` in `src/app.rs` (the state-construction part): detect
the current tmux session/window when inside tmux, and start the selection
on the current session's dimension, defaulting to index 0. The config is
the result of `DimensionConfig::load`, passed in here. -/
def App.new (env : TmuxEnv) (config : DimensionConfig) : App :=
  let detected_session := if env.is_inside then env.current_session else none
  let detected_window := if env.is_inside then env.current_window else none
  let selected_dimension :=
    (detected_session.bind
      (fun session => config.dimensions.findIdx? (fun d => d.name == session))).getD 0
  { config := config
    selected_dimension := selected_dimension
    selected_tab := none
    input_mode := InputMode.Normal
    input_buffer := ""
    search_query := ""
    search_results := []
    search_selected_index := 0
    last_computed_query := ""
    pre_search_dimension := 0
    pre_search_tab := none
    message := none
    should_quit := false
    should_attach := none
    should_select_window := none
    should_detach := false
    current_session := detected_session
    current_window := detected_window
    pending_dimension_name := none
    completion_candidates := []
    completion_index := 0
    completion_base := "" }

/-- From `App::next_dimension` in `src/app.rs`. -/
def App.next_dimension (app : App) : App :=
  if app.config.dimensions.isEmpty then app
  else
    { app with
      selected_dimension := (app.selected_dimension + 1) % app.config.dimensions.length
      selected_tab := none }

/-- From `App::previous_dimension` in `src/app.rs`. -/
def App.previous_dimension (app : App) : App :=
  if app.config.dimensions.isEmpty then app
  else
    { app with
      selected_dimension :=
        if app.selected_dimension = 0 then app.config.dimensions.length - 1
        else app.selected_dimension - 1
      selected_tab := none }

/-- From `App::next_tab` in `src/app.rs`: with a live session, advance by
position in the live window list (selection tracked by tmux window index);
otherwise advance by position in the configured tab list. Both branches
wrap past the end back to the first element. -/
def App.next_tab (env : TmuxEnv) (app : App) : App :=
  match app.config.dimensions.get? app.selected_dimension with
  | none => app
  | some dimension =>
    if env.session_exists dimension.name then
      let windows := env.list_windows dimension.name
      if windows.isEmpty then { app with selected_tab := none }
      else
        let next_idx :=
          match app.selected_tab with
          | none => (windows.headD (0, "")).1
          | some current_window_idx =>
            let pos := (windows.findIdx? (fun w => w.1 == current_window_idx)).getD 0
            ((windows.get? ((pos + 1) % windows.length)).getD (0, "")).1
        { app with selected_tab := some next_idx }
    else
      let tab_count := dimension.configured_tabs.length
      if tab_count = 0 then { app with selected_tab := none }
      else
        let next_idx :=
          match app.selected_tab with
          | none => 0
          | some i => (i + 1) % tab_count
        { app with selected_tab := some next_idx }

/-- From `App::previous_tab` in `src/app.rs`: retreating past the first
element lands on "dimension selected" (`none`); retreating from "dimension
selected" lands on the last element. -/
def App.previous_tab (env : TmuxEnv) (app : App) : App :=
  match app.config.dimensions.get? app.selected_dimension with
  | none => app
  | some dimension =>
    if env.session_exists dimension.name then
      let windows := env.list_windows dimension.name
      if windows.isEmpty then { app with selected_tab := none }
      else
        { app with selected_tab :=
            match app.selected_tab with
            | none => some ((windows.getLastD (0, "")).1)
            | some current_window_idx =>
              let pos := (windows.findIdx? (fun w => w.1 == current_window_idx)).getD 0
              if pos = 0 then none
              else some (((windows.get? (pos - 1)).getD (0, "")).1) }
    else
      let tab_count := dimension.configured_tabs.length
      if tab_count = 0 then { app with selected_tab := none }
      else
        { app with selected_tab :=
            match app.selected_tab with
            | none => some (tab_count - 1)
            | some 0 => none
            | some (i + 1) => some i }

/-- From `App::create_dimension` in `src/app.rs`: duplicate name fails
before any mutation; otherwise a fresh tabless dimension is appended and
the config persisted. The returned triple is the post-call state, the trace
of issued effects, and the error message if the call failed (mirroring
`&mut self` plus `Result`). -/
def App.create_dimension (app : App) (name : String) (base_dir : Option String) :
    App × List Eff × Option String :=
  if (app.config.get_dimension name).isSome then
    (app, [], some ("Dimension already exists: " ++ name))
  else
    let dimension := Dimension.new_with_base_dir name base_dir
    let app := { app with config := app.config.add_dimension dimension }
    let app := { app with message := some ("Created dimension: " ++ name) }
    (app, [Eff.saveConfig], none)

/-- From `App::delete_dimension` in `src/app.rs`: absent name fails;
otherwise remove from config, kill the live session if one exists, persist,
and clamp the selection. -/
def App.delete_dimension (env : TmuxEnv) (app : App) (name : String) :
    App × List Eff × Option String :=
  let (removed, config) := app.config.remove_dimension name
  match removed with
  | none => (app, [], some ("Dimension not found: " ++ name))
  | some _ =>
    let app := { app with config := config }
    let killEffs := if env.session_exists name then [Eff.killSession name] else []
    let app := { app with message := some ("Deleted dimension: " ++ name) }
    let app :=
      if app.selected_dimension ≥ app.config.dimensions.length ∧ app.selected_dimension > 0 then
        { app with selected_dimension := app.selected_dimension - 1 }
      else app
    let app := { app with selected_tab := none }
    (app, killEffs ++ [Eff.saveConfig], none)

/-- Command string built for the first configured tab in
`App::switch_to_dimension` (the `cd`-then-run combination; the Rust code
quotes the directory with the `PathBuf` debug formatter, which this model
elides as it never inspects the string). -/
def firstTabCommand (working_dir : Option String) (command : Option String) : String :=
  match working_dir, command with
  | some dir, some cmd => "cd " ++ dir ++ " && " ++ cmd
  | some dir, none => "cd " ++ dir
  | none, some cmd => cmd
  | none, none => ""

/-- Window-materialization loop of `App::switch_to_dimension` for a fresh
session with configured tabs: the first tab renames window 0 and sends its
command (if non-empty); every later tab becomes a new window. -/
def materializeTabs (name : String) (tabs : List Tab) : List Eff :=
  (tabs.enum.map (fun p =>
    if p.1 = 0 then
      let cmd := firstTabCommand p.2.working_dir p.2.command
      Eff.renameWindow name 0 p.2.name ::
        (if cmd = "" then [] else [Eff.sendKeys name 0 cmd])
    else
      [Eff.newWindow name p.2.name p.2.command p.2.working_dir])).flatten

/-- Modify the dimension at an index in place (the `get_mut` pattern of
`src/app.rs`): no-op when the index is out of bounds. -/
def DimensionConfig.modifyDim (c : DimensionConfig) (i : Nat) (f : Dimension → Dimension) :
    DimensionConfig :=
  match c.dimensions.get? i with
  | none => c
  | some d => { c with dimensions := c.dimensions.set i (f d) }

/-- From `App::switch_to_dimension` in `src/app.rs`. Phase 1: if the
session does not pre-exist, create it (in `base_dir` when set) and
materialize the configured tabs — or, with no configured tabs, rename the
initial window ad hoc and persist that tab back into the config. Phase 2:
resolve the target window from `selected_tab` (window index 0 when nothing
is selected or when a previously selected live index no longer exists).
Phase 3: record the attach target and quit without detaching. -/
def App.switch_to_dimension (env : TmuxEnv) (app : App) : App × List Eff :=
  match app.config.dimensions.get? app.selected_dimension with
  | none => (app, [])
  | some dimension =>
    let name := dimension.name
    let base_dir := dimension.base_dir
    let has_tabs := !dimension.configured_tabs.isEmpty
    let tabs := dimension.configured_tabs
    let session_preexisted := env.session_exists name
    let (app1, effs1) :=
      if session_preexisted then (app, [])
      else
        let createEff := Eff.createSession name base_dir
        if has_tabs then
          (app, createEff :: materializeTabs name tabs)
        else
          let initial_tab_name := name ++ "-1"
          let initial_tab := Tab.new initial_tab_name none base_dir
          let app' :=
            { app with config :=
                app.config.modifyDim app.selected_dimension (fun d => d.add_tab initial_tab) }
          (app', [createEff, Eff.renameWindow name 0 initial_tab_name, Eff.saveConfig])
    let window_index :=
      match app.selected_tab with
      | none => 0
      | some selected =>
        if session_preexisted then
          let windows := env.list_windows name
          if windows.any (fun w => w.1 == selected) then selected else 0
        else
          let windows := env.list_windows name
          ((windows.get? selected).map (fun w => w.1)).getD 0
    ({ app1 with
        should_attach := some name
        should_select_window := some window_index
        should_quit := true
        should_detach := false },
     effs1)

/-- Effective tab set of a dimension as enumerated by
`App::compute_search_results`: live windows when the session exists,
otherwise the configured tab names with their list positions. -/
def effectiveTabs (env : TmuxEnv) (dimension : Dimension) : List (Nat × String) :=
  if env.session_exists dimension.name then env.list_windows dimension.name
  else dimension.configured_tabs.enum.map (fun p => (p.1, p.2.name))

/-- Per-tab combination table of `App::compute_search_results`: the
argument `p` is an `enumerate()` entry `(list_idx, (window_idx, tab_name))`
of the effective tab set. -/
def tabResult (matcher : String → String → Option Int) (query : String) (dim_idx : Nat)
    (dim_name : String) (dim_score : Option Int) (p : Nat × (Nat × String)) :
    Option SearchResult :=
  let tab_score := matcher p.2.2 query
  match dim_score, tab_score with
  | some ds, some ts =>
    some { dimension_index := dim_idx, dimension_name := dim_name, tab_index := p.1,
           tmux_window_index := p.2.1, tab_name := p.2.2, score := ds + ts,
           match_type := MatchType.Both }
  | some ds, none =>
    some { dimension_index := dim_idx, dimension_name := dim_name, tab_index := p.1,
           tmux_window_index := p.2.1, tab_name := p.2.2, score := ds,
           match_type := MatchType.DimensionOnly }
  | none, some ts =>
    some { dimension_index := dim_idx, dimension_name := dim_name, tab_index := p.1,
           tmux_window_index := p.2.1, tab_name := p.2.2, score := ts,
           match_type := MatchType.TabOnly }
  | none, none => none

/-- The synthetic placeholder emitted by `App::compute_search_results` for
a matching dimension with an empty effective tab set. -/
def syntheticResult (dim_idx : Nat) (dim_name : String) (score : Int) : SearchResult :=
  { dimension_index := dim_idx, dimension_name := dim_name, tab_index := 0,
    tmux_window_index := 0, tab_name := "(no tabs)", score := score,
    match_type := MatchType.DimensionOnly }

/-- Results contributed by one dimension in `App::compute_search_results`. -/
def dimensionResults (matcher : String → String → Option Int) (env : TmuxEnv)
    (query : String) (dim_idx : Nat) (dimension : Dimension) : List SearchResult :=
  let dim_score := matcher dimension.name query
  let tabs := effectiveTabs env dimension
  if tabs.isEmpty ∧ dim_score.isSome then
    [syntheticResult dim_idx dimension.name (dim_score.getD 0)]
  else
    tabs.enum.filterMap (tabResult matcher query dim_idx dimension.name dim_score)

/-- Comparator of the final `sort_by(|a, b| b.score.cmp(&a.score))`:
descending by score; `mergeSort` with this relation is stable, matching
Rust's stable `sort_by`. -/
def searchLe (a b : SearchResult) : Bool :=
  decide (b.score ≤ a.score)

/-- Full recomputed result list of `App::compute_search_results` for a
non-empty query: every dimension's contribution in order, sorted by
descending score. -/
def computeResultsList (matcher : String → String → Option Int) (env : TmuxEnv)
    (dims : List Dimension) (query : String) : List SearchResult :=
  ((dims.enum.map (fun p => dimensionResults matcher env query p.1 p.2)).flatten).mergeSort
    searchLe

/-- From `App::compute_search_results` in `src/app.rs`: memoized on the
last computed query; an empty query clears the results; otherwise the list
is recomputed and sorted. The skim fuzzy matcher (`SkimMatcherV2`, an
external crate) is abstracted as the oracle `matcher name query`. -/
def App.compute_search_results (matcher : String → String → Option Int) (env : TmuxEnv)
    (app : App) : App :=
  if app.search_query = app.last_computed_query then app
  else
    let app := { app with
      last_computed_query := app.search_query
      search_results := []
      search_selected_index := 0 }
    if app.search_query.isEmpty then app
    else
      { app with search_results :=
          computeResultsList matcher env app.config.dimensions app.search_query }

/-- From `App::handle_tab_completion_direction` in `src/app.rs`. The
filesystem-backed `PathCompleter::complete_directory` is abstracted as the
oracle `completer input = (candidates, longest shared stem)`. Only the
directory-input mode completes; an active cycling session (non-empty
candidates and non-empty base) advances the cursor with wrap-around; a
fresh request only happens on forward tab. -/
def App.handle_tab_completion_direction (completer : String → List String × String)
    (direction : Int) (app : App) : App :=
  if app.input_mode ≠ InputMode.CreatingDimensionDirectory then app
  else if ¬app.completion_candidates.isEmpty ∧ ¬app.completion_base.isEmpty then
    let len : Int := app.completion_candidates.length
    let idx := (((app.completion_index : Int) + direction + len) % len).toNat
    { app with
      completion_index := idx
      input_buffer := app.completion_candidates.getD idx "" }
  else if direction < 0 then app
  else
    let input := app.input_buffer.trim
    let result := completer input
    let candidates := result.1
    let common_stem := result.2
    match candidates with
    | [] => app
    | [c] =>
      { app with
        input_buffer := c ++ "/"
        completion_candidates := []
        completion_base := ""
        completion_index := 0 }
    | c :: _ :: _ =>
      if common_stem.length > input.length then
        { app with
          input_buffer := common_stem
          completion_base := common_stem
          completion_candidates := candidates
          completion_index := 0 }
      else
        { app with
          completion_base := input
          completion_candidates := candidates
          completion_index := 0
          input_buffer := c }

/-- From `App::handle_tab_completion` in `src/app.rs`: forward request. -/
def App.handle_tab_completion (completer : String → List String × String) (app : App) : App :=
  app.handle_tab_completion_direction completer 1

/-- From `App::handle_backtab_completion` in `src/app.rs`: backward
request. -/
def App.handle_backtab_completion (completer : String → List String × String) (app : App) :
    App :=
  app.handle_tab_completion_direction completer (-1)

/-- From `App::select_search_result` in `src/app.rs`: adopt the selected
result's dimension and its tab reference in whichever index space the
dimension is currently in, clear search state, and immediately switch. -/
def App.select_search_result (env : TmuxEnv) (app : App) : App × List Eff :=
  match app.search_results.get? app.search_selected_index with
  | none => (app, [])
  | some result =>
    let app1 :=
      { app with
        selected_dimension := result.dimension_index
        selected_tab :=
          if env.session_exists result.dimension_name then some result.tmux_window_index
          else some result.tab_index
        input_mode := InputMode.Normal
        search_query := ""
        search_results := []
        last_computed_query := "" }
    App.switch_to_dimension env app1

/-- Test environment: no tmux session exists anywhere and the app was
started outside tmux. -/
def envNoTmux : TmuxEnv :=
  { session_exists := fun _ => false
    list_windows := fun _ => []
    is_inside := false
    current_session := none
    current_window := none }

/-- Test environment: one live session named `work` whose windows carry the
tmux indices 1 and 3 (window 0 and 2 have been closed externally). -/
def envWork : TmuxEnv :=
  { session_exists := fun n => n == "work"
    list_windows := fun n => if n == "work" then [(1, "build"), (3, "test")] else []
    is_inside := false
    current_session := none
    current_window := none }

/-- Baseline app state over a given config, as built at startup outside
tmux. -/
def mkApp (config : DimensionConfig) : App :=
  App.new envNoTmux config

/-- Sample dimension holding the given configured tabs. -/
def dimWork (tabs : List Tab) : Dimension :=
  { name := "work", configured_tabs := tabs, base_dir := none }

/-- Sample tab template with neither command nor working directory. -/
def plainTab (name : String) : Tab :=
  Tab.new name none none

/-- Sample app: one non-live dimension with two configured tabs, the last
tab (configured index 1) selected. -/
def appTwoTabsLast : App :=
  { mkApp { dimensions := [dimWork [plainTab "a", plainTab "b"]] } with
    selected_tab := some 1 }

/-- Selection invariant of the core state: either there are no dimensions
or the selected dimension index is in bounds. -/
def AppInv (app : App) : Prop :=
  app.config.dimensions = [] ∨ app.selected_dimension < app.config.dimensions.length

instance (app : App) : Decidable (AppInv app) := by
  unfold AppInv
  infer_instance

end Core

namespace ConfigStore

theorem tab_fromJson_toJson (t : Tab) : Tab.fromJson (Tab.toJson t) = Except.ok t := by
  obtain ⟨name, command⟩ := t
  cases command <;>
    simp [Tab.fromJson, Tab.toJson, reqStringField, optStringField, lookupField,
      List.find?, bind, Except.bind]

theorem tabsFromJson_map_toJson (l : List Tab) :
    tabsFromJson (l.map Tab.toJson) = Except.ok l := by
  induction l with
  | nil => rfl
  | cons t rest ih =>
    simp [tabsFromJson, tab_fromJson_toJson, ih, bind, Except.bind]

theorem dimension_fromJson_toJson (d : Dimension) :
    Dimension.fromJson (Dimension.toJson d) = Except.ok d := by
  simp [Dimension.fromJson, Dimension.toJson, reqStringField, defaultBoolField,
    lookupField, List.find?, tabsFromJson_map_toJson, bind, Except.bind]

theorem dimensionsFromJson_map_toJson (l : List Dimension) :
    dimensionsFromJson (l.map Dimension.toJson) = Except.ok l := by
  induction l with
  | nil => rfl
  | cons d rest ih =>
    simp [dimensionsFromJson, dimension_fromJson_toJson, ih, bind, Except.bind]

theorem Dimension.fromJson_error_of_no_tabs_field (flds : List (String × Json))
    (h : lookupField flds "tabs" = none) :
    ∃ e, Dimension.fromJson (Json.obj flds) = Except.error e := by
  cases hname : reqStringField flds "name" with
  | error e => exact ⟨e, by simp [Dimension.fromJson, hname, bind, Except.bind]⟩
  | ok s => exact ⟨"missing field tabs", by simp [Dimension.fromJson, hname, h, bind, Except.bind]⟩

theorem dimensionsFromJson_error_of_mem (l : List Json) (j : Json) (hj : j ∈ l)
    (herr : ∃ e, Dimension.fromJson j = Except.error e) :
    ∃ e, dimensionsFromJson l = Except.error e := by
  induction l with
  | nil => cases hj
  | cons x rest ih =>
    cases hx : Dimension.fromJson x with
    | error e => exact ⟨e, by simp [dimensionsFromJson, hx, bind, Except.bind]⟩
    | ok d =>
      rcases List.mem_cons.mp hj with rfl | hmem
      · obtain ⟨e, he⟩ := herr
        rw [hx] at he
        cases he
      · obtain ⟨e, he⟩ := ih hmem
        refine ⟨e, ?_⟩
        simp [dimensionsFromJson, hx, he, bind, Except.bind]

end ConfigStore

/-- Claim C7: for every configuration document, `save` followed by `load`
reproduces an identical structure — the same dimensions in the same order,
with names, ordered tab templates and their optional commands preserved. -/
theorem c7_save_load_roundtrip (c : ConfigStore.DimensionConfig) :
    ConfigStore.load (some (ConfigStore.save c)) = Except.ok c := by
  obtain ⟨dims, active⟩ := c
  cases active <;>
    simp [ConfigStore.load, ConfigStore.save, ConfigStore.DimensionConfig.toJson,
      ConfigStore.DimensionConfig.fromJson, ConfigStore.optStringField,
      ConfigStore.lookupField, List.find?, ConfigStore.dimensionsFromJson_map_toJson,
      bind, Except.bind]

/-- Claim C2, counterexample: a persisted document in which the dimension
entry omits the `tabs` field does not load as a dimension with an empty tab
list — `load` fails with a structural parse error, because the `tabs` field
of `Dimension` carries no `serde(default)` attribute (only `collapsed`
does). -/
theorem c2_missing_tab_list_counterexample :
    ConfigStore.load (some (ConfigStore.Json.obj
      [("dimensions", ConfigStore.Json.arr
        [ConfigStore.Json.obj [("name", ConfigStore.Json.str "work")]])])) =
      Except.error "missing field tabs" := by
  rfl

/-- Claim C2, amended: a persisted document in which a dimension entry
omits the tab-template list field fails to load with a structural parse
error; the fields that do default when absent are a dimension's `collapsed`
flag (to `false`), a tab's `command` (to `None`) and the document's
`active_dimension` (to `None`). -/
theorem c2_missing_tab_list_is_parse_error (flds docflds : List (String × ConfigStore.Json))
    (dimsjs : List ConfigStore.Json)
    (hnotabs : ConfigStore.lookupField flds "tabs" = none)
    (hmem : ConfigStore.Json.obj flds ∈ dimsjs)
    (hdims : ConfigStore.lookupField docflds "dimensions" =
      some (ConfigStore.Json.arr dimsjs)) :
    (∃ e, ConfigStore.load (some (ConfigStore.Json.obj docflds)) = Except.error e) ∧
    (∀ name, ConfigStore.Dimension.fromJson (ConfigStore.Json.obj
        [("name", ConfigStore.Json.str name), ("tabs", ConfigStore.Json.arr [])]) =
      Except.ok { name := name, tabs := [], collapsed := false }) ∧
    (∀ name, ConfigStore.Tab.fromJson (ConfigStore.Json.obj
        [("name", ConfigStore.Json.str name)]) =
      Except.ok { name := name, command := none }) := by
  refine ⟨?_, ?_, ?_⟩
  · obtain ⟨e, he⟩ := ConfigStore.dimensionsFromJson_error_of_mem dimsjs _ hmem
      (ConfigStore.Dimension.fromJson_error_of_no_tabs_field flds hnotabs)
    exact ⟨e, by simp [ConfigStore.load, ConfigStore.DimensionConfig.fromJson, hdims, he,
      bind, Except.bind]⟩
  · intro name
    simp [ConfigStore.Dimension.fromJson, ConfigStore.reqStringField,
      ConfigStore.defaultBoolField, ConfigStore.lookupField, List.find?,
      ConfigStore.tabsFromJson, bind, Except.bind]
  · intro name
    simp [ConfigStore.Tab.fromJson, ConfigStore.reqStringField,
      ConfigStore.optStringField, ConfigStore.lookupField, List.find?, bind, Except.bind]

/-- Claim C2, witness for the amended theorem at a concrete document. -/
theorem c2_missing_tab_list_witness :
    ∃ e, ConfigStore.load (some (ConfigStore.Json.obj
      [("dimensions", ConfigStore.Json.arr
        [ConfigStore.Json.obj [("name", ConfigStore.Json.str "work")]])])) =
      Except.error e :=
  (c2_missing_tab_list_is_parse_error
    [("name", ConfigStore.Json.str "work")]
    [("dimensions", ConfigStore.Json.arr
      [ConfigStore.Json.obj [("name", ConfigStore.Json.str "work")]])]
    [ConfigStore.Json.obj [("name", ConfigStore.Json.str "work")]]
    rfl (List.mem_singleton.mpr rfl) rfl).1

/-- Claim C3: creating a dimension under an existing name fails and leaves
the whole state unchanged with nothing persisted; under a fresh name it
appends a dimension with that name, an empty tab list and the given base
directory, and persists; consequently dimension names stay unique. -/
theorem c3_create_dimension_unique (app : Core.App) (n : String) (d : Option String) :
    ((app.config.get_dimension n).isSome →
      app.create_dimension n d = (app, [], some ("Dimension already exists: " ++ n))) ∧
    (app.config.get_dimension n = none →
      app.create_dimension n d =
        ({ app with
             config := { dimensions := app.config.dimensions ++
               [{ name := n, configured_tabs := [], base_dir := d }] }
             message := some ("Created dimension: " ++ n) },
         [Core.Eff.saveConfig], none)) ∧
    ((app.config.dimensions.map Core.Dimension.name).Nodup →
      (((app.create_dimension n d).1).config.dimensions.map Core.Dimension.name).Nodup) := by
  refine ⟨?_, ?_, ?_⟩
  · intro h
    simp [Core.App.create_dimension, h]
  · intro h
    simp [Core.App.create_dimension, h, Core.Dimension.new_with_base_dir,
      Core.DimensionConfig.add_dimension]
  · intro hnd
    by_cases h : (app.config.get_dimension n).isSome
    · simp [Core.App.create_dimension, h, hnd]
    · have hnone : app.config.get_dimension n = none := Option.not_isSome_iff_eq_none.mp h
      have hfresh : ∀ dd ∈ app.config.dimensions, dd.name ≠ n := by
        intro dd hdd
        have := List.find?_eq_none.mp hnone dd hdd
        simpa using this
      simp only [Core.App.create_dimension, h, if_false, Bool.false_eq_true,
        Core.DimensionConfig.add_dimension, Core.Dimension.new_with_base_dir]
      rw [List.map_append, List.nodup_append]
      refine ⟨hnd, by simp, ?_⟩
      intro a ha hb
      obtain ⟨dd, hdd, rfl⟩ := List.mem_map.mp ha
      simp at hb
      exact hfresh dd hdd hb

/-- Claim C3, witness: the duplicate branch at a config already holding
`work`, and the fresh branch starting from an empty config. -/
theorem c3_create_dimension_witness :
    ((Core.mkApp { dimensions := [Core.dimWork []] }).create_dimension "work" none =
      (Core.mkApp { dimensions := [Core.dimWork []] }, [],
        some ("Dimension already exists: " ++ "work"))) ∧
    ((Core.mkApp { dimensions := [] }).create_dimension "work" (some "/w") =
      ({ Core.mkApp { dimensions := [] } with
           config := { dimensions := [] ++
             [{ name := "work", configured_tabs := [], base_dir := some "/w" }] }
           message := some ("Created dimension: " ++ "work") },
       [Core.Eff.saveConfig], none)) :=
  ⟨(c3_create_dimension_unique (Core.mkApp { dimensions := [Core.dimWork []] })
      "work" none).1 (by decide),
   (c3_create_dimension_unique (Core.mkApp { dimensions := [] })
      "work" (some "/w")).2.1 (by decide)⟩

/-- Position lookup by window index: with duplicate-free window indices,
looking up the index stored at position `k` finds exactly position `k`. -/
theorem findIdx_fst_of_nodup (l : List (Nat × String)) (k : Nat) (w : Nat × String)
    (hk : l.get? k = some w) (hnd : (l.map Prod.fst).Nodup) :
    l.findIdx? (fun x => x.1 == w.1) = some k := by
  induction l generalizing k with
  | nil => simp at hk
  | cons x rest ih =>
    cases k with
    | zero =>
      simp only [List.get?_cons_zero, Option.some.injEq] at hk
      subst hk
      simp [List.findIdx?_cons]
    | succ k =>
      simp only [List.get?_cons_succ] at hk
      have hwmem : w ∈ rest := List.get?_mem hk
      have hx : x.1 ≠ w.1 := by
        intro hcontra
        have : w.1 ∈ rest.map Prod.fst := List.mem_map.mpr ⟨w, hwmem, rfl⟩
        rw [← hcontra] at this
        exact (List.nodup_cons.mp (by simpa using hnd)).1 this
      have hnd' : (rest.map Prod.fst).Nodup := (List.nodup_cons.mp (by simpa using hnd)).2
      rw [List.findIdx?_cons]
      simp only [hx, beq_iff_eq, if_neg]
      rw [List.findIdx?_succ, ih k hk hnd']
      rfl


/-- Claim C1 (amended): over a non-empty effective tab list, `previous_tab`
at the first element lands on "dimension selected" and `next_tab` from
"dimension selected" selects the first element, but `next_tab` at the last
element wraps around to the first element — it does not land on "dimension
selected". This holds in both index spaces: live windows (selection tracked
by tmux window index, with the session's window indices duplicate-free) and
configured tabs. -/
theorem c1_tab_traversal (env : Core.TmuxEnv) (app : Core.App) (dimension : Core.Dimension)
    (hdim : app.config.dimensions.get? app.selected_dimension = some dimension) :
    (env.session_exists dimension.name = true →
      ((env.list_windows dimension.name).map Prod.fst).Nodup →
      ∀ wfirst wlast : Nat × String,
        (env.list_windows dimension.name).get? 0 = some wfirst →
        (env.list_windows dimension.name).get?
            ((env.list_windows dimension.name).length - 1) = some wlast →
        ((app.selected_tab = none →
           (app.next_tab env).selected_tab = some wfirst.1) ∧
         (app.selected_tab = some wlast.1 →
           (app.next_tab env).selected_tab = some wfirst.1) ∧
         (app.selected_tab = some wfirst.1 →
           (app.previous_tab env).selected_tab = none))) ∧
    (env.session_exists dimension.name = false →
      dimension.configured_tabs ≠ [] →
      ((app.selected_tab = none → (app.next_tab env).selected_tab = some 0) ∧
       (app.selected_tab = some (dimension.configured_tabs.length - 1) →
         (app.next_tab env).selected_tab = some 0) ∧
       (app.selected_tab = some 0 → (app.previous_tab env).selected_tab = none))) := by
  have hdim' : app.config.dimensions[app.selected_dimension]? = some dimension := by
    rw [← List.get?_eq_getElem?]
    exact hdim
  constructor
  · intro hlive hnd wfirst wlast hwfirst hwlast
    have hne2 : ¬(env.list_windows dimension.name = []) := by
      intro hcontra
      rw [hcontra] at hwfirst
      simp at hwfirst
    have hlen : 0 < (env.list_windows dimension.name).length :=
      List.length_pos.mpr hne2
    have hhead : (env.list_windows dimension.name).head? = some wfirst := by
      rw [List.head?_eq_getElem?, ← List.get?_eq_getElem?]
      exact hwfirst
    have hget0 : (env.list_windows dimension.name)[0]? = some wfirst := by
      rw [← List.get?_eq_getElem?]
      exact hwfirst
    refine ⟨?_, ?_, ?_⟩
    · intro hsel
      simp [Core.App.next_tab, hdim', hlive, hne2, hsel, hhead]
    · intro hsel
      have hfind := findIdx_fst_of_nodup (env.list_windows dimension.name)
        ((env.list_windows dimension.name).length - 1) wlast hwlast hnd
      have hmod : ((env.list_windows dimension.name).length - 1 + 1) %
          (env.list_windows dimension.name).length = 0 := by
        rw [Nat.sub_add_cancel hlen, Nat.mod_self]
      simp [Core.App.next_tab, hdim', hlive, hne2, hsel, hfind, hmod, hget0]
    · intro hsel
      have hfind := findIdx_fst_of_nodup (env.list_windows dimension.name) 0 wfirst
        hwfirst hnd
      simp [Core.App.previous_tab, hdim', hlive, hne2, hsel, hfind]
  · intro hlive hne
    have hne0 : dimension.configured_tabs.length ≠ 0 :=
      Nat.pos_iff_ne_zero.mp (List.length_pos.mpr hne)
    refine ⟨?_, ?_, ?_⟩
    · intro hsel
      simp [Core.App.next_tab, hdim', hlive, hsel, hne0]
    · intro hsel
      have hmod : (dimension.configured_tabs.length - 1 + 1) %
          dimension.configured_tabs.length = 0 := by
        rw [Nat.sub_add_cancel (Nat.pos_of_ne_zero hne0), Nat.mod_self]
      simp [Core.App.next_tab, hdim', hlive, hsel, hne0, hmod]
    · intro hsel
      simp [Core.App.previous_tab, hdim', hlive, hsel, hne0]

/-- Claim C1, counterexample: with no live session, configured tabs
`[a, b]` and the last tab (index 1) selected, `next_tab` does not set the
selection to "dimension selected" — it wraps to the first tab. -/
theorem c1_next_tab_last_counterexample :
    (Core.appTwoTabsLast.next_tab Core.envNoTmux).selected_tab = some 0 ∧
    (Core.appTwoTabsLast.next_tab Core.envNoTmux).selected_tab ≠ none := by
  constructor
  · rfl
  · decide

/-- Claim C1, witness for the amended theorem: exercises both branches —
the live `work` session with windows at tmux indices 1 and 3, and the
non-live configured list of two tabs. -/
theorem c1_tab_traversal_witness :
    (({ Core.mkApp { dimensions := [Core.dimWork []] } with
        selected_tab := some 3 }).next_tab Core.envWork).selected_tab = some 1 ∧
    (({ Core.mkApp { dimensions := [Core.dimWork []] } with
        selected_tab := some 1 }).previous_tab Core.envWork).selected_tab = none ∧
    (Core.appTwoTabsLast.next_tab Core.envNoTmux).selected_tab = some 0 := by
  refine ⟨?_, ?_, ?_⟩
  · exact (((c1_tab_traversal Core.envWork
      { Core.mkApp { dimensions := [Core.dimWork []] } with selected_tab := some 3 }
      (Core.dimWork []) rfl).1 rfl (by decide) (1, "build") (3, "test") rfl rfl).2.1 rfl)
  · exact (((c1_tab_traversal Core.envWork
      { Core.mkApp { dimensions := [Core.dimWork []] } with selected_tab := some 1 }
      (Core.dimWork []) rfl).1 rfl (by decide) (1, "build") (3, "test") rfl rfl).2.2 rfl)
  · exact (((c1_tab_traversal Core.envNoTmux Core.appTwoTabsLast
      (Core.dimWork [Core.plainTab "a", Core.plainTab "b"]) rfl).2 rfl
      (by decide)).2.1 rfl)

/-- Claim C4 (amended): when the selected dimension's session already
exists, `switch_to_dimension` issues no external command at all (no session
or window creation, no rename, no send-keys, and no config write), leaves
the configured tab list and the selection untouched, and only resolves the
target window — a selected live index that still exists is kept, a selected
live index that no longer exists falls back to window index 0 (not to the
first window), and no selection targets window 0 — then records the attach
target. A second call on the resulting state again issues no command. -/
theorem c4_switch_live_idempotent (env : Core.TmuxEnv) (app : Core.App)
    (dimension : Core.Dimension)
    (hdim : app.config.dimensions.get? app.selected_dimension = some dimension)
    (hlive : env.session_exists dimension.name = true) :
    (app.switch_to_dimension env).2 = [] ∧
    (app.switch_to_dimension env).1.config = app.config ∧
    (app.switch_to_dimension env).1.should_attach = some dimension.name ∧
    (app.switch_to_dimension env).1.should_select_window =
      some (match app.selected_tab with
            | none => 0
            | some selected =>
              if (env.list_windows dimension.name).any (fun w => w.1 == selected)
              then selected else 0) ∧
    (app.switch_to_dimension env).1.selected_dimension = app.selected_dimension ∧
    (app.switch_to_dimension env).1.selected_tab = app.selected_tab ∧
    ((app.switch_to_dimension env).1.switch_to_dimension env).2 = [] := by
  have hdim' : app.config.dimensions[app.selected_dimension]? = some dimension := by
    rw [← List.get?_eq_getElem?]
    exact hdim
  refine ⟨?_, ?_, ?_, ?_, ?_, ?_, ?_⟩ <;>
    simp [Core.App.switch_to_dimension, hdim', hlive]

/-- Claim C4, counterexample: live session `work` has windows at tmux
indices 1 and 3, the stale selected live index is 0; the code resolves the
attach target to window index 0, which is not a live window — the first
live window has index 1 — so "falling back to the first window" does not
hold as stated. -/
theorem c4_window_fallback_counterexample :
    ((({ Core.mkApp { dimensions := [Core.dimWork []] } with
          selected_tab := some 0 }).switch_to_dimension
        Core.envWork).1.should_select_window = some 0) ∧
    (Core.envWork.list_windows "work").get? 0 = some (1, "build") ∧
    ¬(0 ∈ (Core.envWork.list_windows "work").map Prod.fst) := by
  refine ⟨rfl, rfl, by decide⟩

/-- Claim C4, witness for the amended theorem: a still-existing selected
live index (3) is kept and no effect is issued. -/
theorem c4_switch_live_witness :
    ((({ Core.mkApp { dimensions := [Core.dimWork []] } with
          selected_tab := some 3 }).switch_to_dimension Core.envWork).2 = []) ∧
    ((({ Core.mkApp { dimensions := [Core.dimWork []] } with
          selected_tab := some 3 }).switch_to_dimension
        Core.envWork).1.should_select_window = some 3) := by
  have h := c4_switch_live_idempotent Core.envWork
    { Core.mkApp { dimensions := [Core.dimWork []] } with selected_tab := some 3 }
    (Core.dimWork []) rfl rfl
  exact ⟨h.1, by simpa using h.2.2.2.1⟩


/-- Claim C8: a fresh (non-cycling) forward completion request in the
directory-input mode is a no-op when the completer returns zero candidates,
and with exactly one candidate replaces the input buffer by that candidate
with exactly one trailing separator appended while clearing the cycling
state. -/
theorem c8_fresh_forward_completion (completer : String → List String × String)
    (app : Core.App)
    (hmode : app.input_mode = Core.InputMode.CreatingDimensionDirectory)
    (hfresh : ¬(¬app.completion_candidates.isEmpty ∧ ¬app.completion_base.isEmpty)) :
    ((completer app.input_buffer.trim).1 = [] →
      app.handle_tab_completion_direction completer 1 = app) ∧
    (∀ c, (completer app.input_buffer.trim).1 = [c] →
      app.handle_tab_completion_direction completer 1 =
        { app with
          input_buffer := c ++ "/"
          completion_candidates := []
          completion_base := ""
          completion_index := 0 }) := by
  rcases not_and_or.mp hfresh with hc | hb
  · have hc' : app.completion_candidates = [] := by
      cases h : app.completion_candidates with
      | nil => rfl
      | cons x rest => rw [h] at hc; simp at hc
    constructor
    · intro h
      simp [Core.App.handle_tab_completion_direction, hmode, hc', h]
    · intro c h
      simp [Core.App.handle_tab_completion_direction, hmode, hc', h]
  · have hb' : app.completion_base.isEmpty = true := by
      cases h : app.completion_base.isEmpty with
      | true => rfl
      | false => rw [h] at hb; simp at hb
    constructor
    · intro h
      simp [Core.App.handle_tab_completion_direction, hmode, hb', h]
    · intro c h
      simp [Core.App.handle_tab_completion_direction, hmode, hb', h]

/-- Claim C8, witness: a completer seeing one candidate, and one seeing
none. -/
theorem c8_fresh_forward_completion_witness :
    (({ Core.mkApp { dimensions := [] } with
        input_mode := Core.InputMode.CreatingDimensionDirectory
        input_buffer := "/ho" }).handle_tab_completion_direction
      (fun _ => (["/home"], "/home")) 1 =
      { Core.mkApp { dimensions := [] } with
        input_mode := Core.InputMode.CreatingDimensionDirectory
        input_buffer := "/home" ++ "/"
        completion_candidates := []
        completion_base := ""
        completion_index := 0 }) ∧
    (({ Core.mkApp { dimensions := [] } with
        input_mode := Core.InputMode.CreatingDimensionDirectory
        input_buffer := "/zz" }).handle_tab_completion_direction
      (fun _ => ([], "")) 1 =
      { Core.mkApp { dimensions := [] } with
        input_mode := Core.InputMode.CreatingDimensionDirectory
        input_buffer := "/zz" }) := by
  constructor
  · exact (c8_fresh_forward_completion (fun _ => (["/home"], "/home")) _ rfl
      (by intro hcontra; exact absurd rfl (hcontra.1))).2 "/home" rfl
  · exact (c8_fresh_forward_completion (fun _ => ([], "")) _ rfl
      (by intro hcontra; exact absurd rfl (hcontra.1))).1 rfl

/-- Cycle-position arithmetic of the completion handler, in the form the
simplifier leaves behind for a forward step: the Rust
`((index as i32 + 1 + len) % len) as usize` computation. -/
theorem int_cycle_idx (i len : Nat) :
    (((i : Int) + 1) % (len : Int)).toNat = (i + 1) % len := by
  have h2 : ((i : Int) + 1) = ((i + 1 : Nat) : Int) := by push_cast; ring
  rw [h2, ← Int.ofNat_emod]
  exact Int.toNat_ofNat _

/-- One forward completion request while a cycling session is active:
advance the cursor with wrap-around and show the candidate there. -/
theorem cycle_step (completer : String → List String × String) (app : Core.App)
    (hmode : app.input_mode = Core.InputMode.CreatingDimensionDirectory)
    (hcand : ¬app.completion_candidates.isEmpty)
    (hbase : ¬app.completion_base.isEmpty) :
    app.handle_tab_completion_direction completer 1 =
      { app with
        completion_index :=
          (app.completion_index + 1) % app.completion_candidates.length
        input_buffer := app.completion_candidates.getD
          ((app.completion_index + 1) % app.completion_candidates.length) "" } := by
  have hcand2 : ¬(app.completion_candidates = []) := by
    intro hcontra
    rw [hcontra] at hcand
    exact hcand rfl
  have hbase2 : app.completion_base.isEmpty = false := by
    cases h : app.completion_base.isEmpty with
    | false => rfl
    | true => rw [h] at hbase; simp at hbase
  simp [Core.App.handle_tab_completion_direction, hmode, hcand2, hbase2, int_cycle_idx,
    List.getD_eq_getElem?_getD]

/-- Iterated forward completion requests while cycling: after `k ≥ 1`
steps the cursor sits at `(start + k) mod N` and the buffer shows the
candidate there. -/
theorem cycle_iterate (completer : String → List String × String) (app : Core.App)
    (hmode : app.input_mode = Core.InputMode.CreatingDimensionDirectory)
    (hcand : ¬app.completion_candidates.isEmpty)
    (hbase : ¬app.completion_base.isEmpty) :
    ∀ k, 0 < k →
      (fun a => Core.App.handle_tab_completion_direction completer 1 a)^[k] app =
        { app with
          completion_index :=
            (app.completion_index + k) % app.completion_candidates.length
          input_buffer := app.completion_candidates.getD
            ((app.completion_index + k) % app.completion_candidates.length) "" } := by
  intro k hk
  induction k with
  | zero => cases hk
  | succ k ih =>
    cases Nat.eq_zero_or_pos k with
    | inl hzero =>
      subst hzero
      simpa using cycle_step completer app hmode hcand hbase
    | inr hpos =>
      have hstep := cycle_step completer
        { app with
          completion_index :=
            (app.completion_index + k) % app.completion_candidates.length
          input_buffer := app.completion_candidates.getD
            ((app.completion_index + k) % app.completion_candidates.length) "" }
        hmode hcand hbase
      rw [Function.iterate_succ_apply', ih hpos, hstep]
      simp only [Nat.mod_add_mod]
      rw [Nat.add_assoc]

/-- Claim C9: while a cycling session is active with N candidates and the
buffer showing the candidate at the cursor (as it does at every cycle
step), N consecutive forward completion requests restore the input buffer
and the cycle cursor exactly, leaving candidates and base untouched; and a
backward completion request with no active cycling session leaves the state
entirely unchanged — it never starts a new cycle. -/
theorem c9_cycle_roundtrip_and_backward (completer : String → List String × String)
    (app : Core.App) :
    (app.input_mode = Core.InputMode.CreatingDimensionDirectory →
      ¬app.completion_candidates.isEmpty →
      ¬app.completion_base.isEmpty →
      app.completion_index < app.completion_candidates.length →
      app.input_buffer = app.completion_candidates.getD app.completion_index "" →
      (let final := (fun a => Core.App.handle_tab_completion_direction completer 1 a)^[
        app.completion_candidates.length] app
       final.input_buffer = app.input_buffer ∧
       final.completion_index = app.completion_index ∧
       final.completion_candidates = app.completion_candidates ∧
       final.completion_base = app.completion_base)) ∧
    (¬(¬app.completion_candidates.isEmpty ∧ ¬app.completion_base.isEmpty) →
      app.handle_tab_completion_direction completer (-1) = app) := by
  constructor
  · intro hmode hcand hbase hi hbuf
    have hcand2 : app.completion_candidates ≠ [] := by
      intro hcontra
      rw [hcontra] at hcand
      exact hcand rfl
    have hlen : 0 < app.completion_candidates.length := List.length_pos.mpr hcand2
    have hiter := cycle_iterate completer app hmode hcand hbase
      app.completion_candidates.length hlen
    have hmod : (app.completion_index + app.completion_candidates.length) %
        app.completion_candidates.length = app.completion_index := by
      rw [Nat.add_mod_right]
      exact Nat.mod_eq_of_lt hi
    rw [hiter]
    simp [hmod, hbuf]
  · intro hfresh
    by_cases hmode : app.input_mode = Core.InputMode.CreatingDimensionDirectory
    · rcases not_and_or.mp hfresh with hc | hb
      · have hc' : app.completion_candidates = [] := by
          cases h : app.completion_candidates with
          | nil => rfl
          | cons x rest => rw [h] at hc; simp at hc
        simp [Core.App.handle_tab_completion_direction, hmode, hc']
      · have hb' : app.completion_base.isEmpty = true := by
          cases h : app.completion_base.isEmpty with
          | true => rfl
          | false => rw [h] at hb; simp at hb
        simp [Core.App.handle_tab_completion_direction, hmode, hb']
    · simp [Core.App.handle_tab_completion_direction, hmode]

/-- Claim C9, witness: three candidates, cursor at 0, buffer showing the
first candidate; three forward requests restore buffer and cursor; a
backward request on a fresh state changes nothing. -/
theorem c9_cycle_roundtrip_witness :
    (let app : Core.App :=
      { Core.mkApp { dimensions := [] } with
        input_mode := Core.InputMode.CreatingDimensionDirectory
        completion_candidates := ["a", "b", "c"]
        completion_base := "x"
        input_buffer := "a" }
     let final := (fun a =>
       Core.App.handle_tab_completion_direction (fun _ => ([], "")) 1 a)^[3] app
     final.input_buffer = "a" ∧ final.completion_index = 0) ∧
    (Core.App.handle_tab_completion_direction (fun _ => ([], "")) (-1)
      (Core.mkApp { dimensions := [] }) = Core.mkApp { dimensions := [] }) := by
  constructor
  · have h := (c9_cycle_roundtrip_and_backward (fun _ => ([], ""))
      { Core.mkApp { dimensions := [] } with
        input_mode := Core.InputMode.CreatingDimensionDirectory
        completion_candidates := ["a", "b", "c"]
        completion_base := "x"
        input_buffer := "a" }).1 rfl (by intro hcontra; simp at hcontra)
      (by intro hcontra; exact absurd hcontra (by decide)) (by decide) rfl
    exact ⟨h.1, h.2.1⟩
  · exact (c9_cycle_roundtrip_and_backward (fun _ => ([], ""))
      (Core.mkApp { dimensions := [] })).2
      (by intro hcontra; exact absurd rfl hcontra.1)

/-- Switching dimensions never changes which dimension is selected and
never changes the number of dimensions (it can only rewrite one dimension
in place when persisting an ad hoc initial tab). -/
theorem switch_to_dimension_preserves (env : Core.TmuxEnv) (app : Core.App) :
    (app.switch_to_dimension env).1.selected_dimension = app.selected_dimension ∧
    (app.switch_to_dimension env).1.config.dimensions.length =
      app.config.dimensions.length := by
  cases hd : app.config.dimensions.get? app.selected_dimension with
  | none =>
    have hd2 : app.config.dimensions[app.selected_dimension]? = none := by
      rw [← List.get?_eq_getElem?]; exact hd
    simp [Core.App.switch_to_dimension, hd, hd2]
  | some dimension =>
    have hd2 : app.config.dimensions[app.selected_dimension]? = some dimension := by
      rw [← List.get?_eq_getElem?]; exact hd
    by_cases hs : env.session_exists dimension.name
    · simp [Core.App.switch_to_dimension, hd, hd2, hs]
    · by_cases ht : dimension.configured_tabs.isEmpty
      · simp only [Core.App.switch_to_dimension, hd, hd2, hs, ht,
          Core.DimensionConfig.modifyDim]
        cases hg : app.config.dimensions.get? app.selected_dimension <;>
          simp [hg, List.length_set]
      · simp [Core.App.switch_to_dimension, hd, hd2, hs, ht]

/-- Claim C10: the invariant "no dimensions, or the selected dimension
index is in bounds" is preserved by dimension traversal (wrap-around modulo
the list length), by `delete_dimension` (which clamps the selection), by
`select_search_result` whenever the results refer to the current dimension
list, and is established by state construction. -/
theorem c10_selection_invariant (app : Core.App) (hinv : Core.AppInv app) :
    Core.AppInv app.next_dimension ∧
    Core.AppInv app.previous_dimension ∧
    (∀ env name, Core.AppInv (app.delete_dimension env name).1) ∧
    (∀ env, (∀ r ∈ app.search_results,
        r.dimension_index < app.config.dimensions.length) →
      Core.AppInv (app.select_search_result env).1) ∧
    (∀ env config, Core.AppInv (Core.App.new env config)) := by
  refine ⟨?_, ?_, ?_, ?_, ?_⟩
  · by_cases h : app.config.dimensions.isEmpty
    · simpa [Core.App.next_dimension, h] using hinv
    · have hne : app.config.dimensions ≠ [] := by
        simpa [List.isEmpty_iff] using h
      have hlen : 0 < app.config.dimensions.length := List.length_pos.mpr hne
      unfold Core.AppInv
      simp only [Core.App.next_dimension, h, Bool.false_eq_true, if_false]
      exact Or.inr (Nat.mod_lt _ hlen)
  · by_cases h : app.config.dimensions.isEmpty
    · simpa [Core.App.previous_dimension, h] using hinv
    · have hne : app.config.dimensions ≠ [] := by
        simpa [List.isEmpty_iff] using h
      have hlen : 0 < app.config.dimensions.length := List.length_pos.mpr hne
      have hsel : app.selected_dimension < app.config.dimensions.length := by
        cases hinv with
        | inl hempty => exact absurd hempty hne
        | inr hlt => exact hlt
      unfold Core.AppInv
      simp only [Core.App.previous_dimension, h, Bool.false_eq_true, if_false]
      by_cases h0 : app.selected_dimension = 0
      · simp only [h0, if_true]
        exact Or.inr (Nat.sub_lt hlen Nat.one_pos)
      · simp only [h0, if_false]
        exact Or.inr (Nat.lt_of_le_of_lt (Nat.sub_le _ _) hsel)
  · intro env name
    cases hf : app.config.dimensions.findIdx? (fun d => d.name == name) with
    | none =>
      simpa [Core.App.delete_dimension, Core.DimensionConfig.remove_dimension, hf]
        using hinv
    | some pos =>
      have hpos : pos < app.config.dimensions.length :=
        (List.findIdx?_eq_some_iff_findIdx_eq.mp hf).1
      have hget : app.config.dimensions.get? pos = some (app.config.dimensions.get ⟨pos, hpos⟩) :=
        List.get?_eq_get hpos
      have hsel : app.selected_dimension < app.config.dimensions.length := by
        cases hinv with
        | inl hempty => rw [hempty] at hpos; cases hpos
        | inr hlt => exact hlt
      have herase : (app.config.dimensions.eraseIdx pos).length =
          app.config.dimensions.length - 1 := by
        rw [List.length_eraseIdx]
        simp [hpos]
      unfold Core.AppInv
      simp only [Core.App.delete_dimension, Core.DimensionConfig.remove_dimension, hf, hget]
      split
      · rename_i hc
        dsimp only
        rw [← List.length_eq_zero, herase]
        rw [herase] at hc
        omega
      · rename_i hc
        dsimp only
        rw [← List.length_eq_zero, herase]
        rw [herase] at hc
        omega
  · intro env hres
    cases hr : app.search_results.get? app.search_selected_index with
    | none =>
      simp only [Core.App.select_search_result, hr]
      exact hinv
    | some result =>
      have hlt : result.dimension_index < app.config.dimensions.length :=
        hres result (List.get?_mem hr)
      have key : ∀ b : Core.App, b.selected_dimension = result.dimension_index →
          b.config.dimensions.length = app.config.dimensions.length →
          Core.AppInv (b.switch_to_dimension env).1 := by
        intro b h1 h2
        have hp := switch_to_dimension_preserves env b
        unfold Core.AppInv
        right
        rw [hp.1, hp.2, h1, h2]
        exact hlt
      simp only [Core.App.select_search_result, hr]
      exact key _ rfl rfl
  · intro env config
    unfold Core.AppInv
    simp only [Core.App.new]
    cases hb : (if env.is_inside then env.current_session else none).bind
        (fun session => config.dimensions.findIdx? (fun d => d.name == session)) with
    | none =>
      cases hc : config.dimensions with
      | nil => exact Or.inl rfl
      | cons x rest =>
        right
        simp [hb, hc]
    | some i =>
      obtain ⟨s, hs, hfind⟩ := Option.bind_eq_some.mp hb
      right
      simp only [hb, Option.getD_some]
      exact (List.findIdx?_eq_some_iff_findIdx_eq.mp hfind).1

/-- Claim C10, witness: the invariant at a one-dimension config, after a
traversal step, after deleting that dimension, and at a freshly constructed
state inside the live `work` session. -/
theorem c10_selection_invariant_witness :
    Core.AppInv (Core.mkApp { dimensions := [Core.dimWork []] }).next_dimension ∧
    Core.AppInv ((Core.mkApp { dimensions := [Core.dimWork []] }).delete_dimension
      Core.envNoTmux "work").1 ∧
    Core.AppInv (Core.App.new Core.envWork { dimensions := [Core.dimWork []] }) := by
  have h := c10_selection_invariant (Core.mkApp { dimensions := [Core.dimWork []] })
    (by decide)
  exact ⟨h.1, h.2.2.1 Core.envNoTmux "work",
    h.2.2.2.2 Core.envWork { dimensions := [Core.dimWork []] }⟩

/-- Results built by `tabResult` carry the dimension index, the enumerate
position, the window index and the tab name of the entry they came from. -/
theorem tabResult_eq_some (matcher : String → String → Option Int) (query : String)
    (dim_idx : Nat) (dim_name : String) (dim_score : Option Int) (p : Nat × (Nat × String))
    (r : Core.SearchResult)
    (h : Core.tabResult matcher query dim_idx dim_name dim_score p = some r) :
    r.dimension_index = dim_idx ∧ r.tab_index = p.1 ∧ r.tmux_window_index = p.2.1 ∧
      r.tab_name = p.2.2 := by
  unfold Core.tabResult at h
  cases dim_score <;> cases hts : matcher p.2.2 query <;>
    simp [hts] at h <;> (rw [← h])
  all_goals exact ⟨rfl, rfl, rfl, rfl⟩

/-- Every result contributed by a dimension carries that dimension's
index. -/
theorem dim_index_of_mem_dimensionResults (matcher : String → String → Option Int)
    (env : Core.TmuxEnv) (query : String) (i : Nat) (d : Core.Dimension)
    (r : Core.SearchResult) (hr : r ∈ Core.dimensionResults matcher env query i d) :
    r.dimension_index = i := by
  unfold Core.dimensionResults at hr
  by_cases hcond : (Core.effectiveTabs env d).isEmpty ∧ (matcher d.name query).isSome
  · rw [if_pos hcond] at hr
    rcases List.mem_singleton.mp hr with rfl
    rfl
  · rw [if_neg hcond] at hr
    obtain ⟨p, _, hfp⟩ := List.mem_filterMap.mp hr
    exact (tabResult_eq_some matcher query i d.name (matcher d.name query) p r hfp).1

/-- Membership in the flattened per-dimension chunks of the search loop. -/
theorem mem_flatten_enumFrom {α β : Type} (g : Nat × α → List β) (l : List α) (n : Nat)
    (r : β) :
    (r ∈ ((List.enumFrom n l).map g).flatten ↔
      ∃ k, ∃ h : k < l.length, r ∈ g (n + k, l[k])) := by
  induction l generalizing n with
  | nil => simp
  | cons x rest ih =>
    rw [List.enumFrom_cons, List.map_cons, List.flatten_cons]
    constructor
    · intro hmem
      rcases List.mem_append.mp hmem with hhead | htail
      · exact ⟨0, by simp, by simpa using hhead⟩
      · obtain ⟨k, hk, hr⟩ := (ih (n + 1)).mp htail
        refine ⟨k + 1, by simpa using Nat.succ_lt_succ hk, ?_⟩
        have harith : n + (k + 1) = n + 1 + k := by omega
        rw [harith, List.getElem_cons_succ]
        exact hr
    · rintro ⟨k, hk, hr⟩
      cases k with
      | zero =>
        exact List.mem_append.mpr (Or.inl (by simpa using hr))
      | succ k =>
        refine List.mem_append.mpr
          (Or.inr ((ih (n + 1)).mpr ⟨k, by simpa using Nat.lt_of_succ_lt_succ hk, ?_⟩))
        have harith : n + (k + 1) = n + 1 + k := by omega
        rw [harith, List.getElem_cons_succ] at hr
        exact hr

/-- The enumerate entry at a valid position is a member. -/
theorem enumFrom_mem_intro {α : Type} (l : List α) (n k : Nat) (hk : k < l.length) :
    (n + k, l[k]) ∈ List.enumFrom n l := by
  induction l generalizing n k with
  | nil => simp at hk
  | cons x rest ih =>
    cases k with
    | zero => simp
    | succ k =>
      rw [List.enumFrom_cons]
      refine List.mem_cons.mpr (Or.inr ?_)
      have harith : n + (k + 1) = n + 1 + k := by omega
      rw [harith, List.getElem_cons_succ]
      exact ih (n + 1) k (by simpa using Nat.lt_of_succ_lt_succ hk)

/-- Chunks of dimensions whose index lies strictly above `i` contribute no
result with dimension index `i`. -/
theorem countP_dim_flatten_zero (matcher : String → String → Option Int)
    (env : Core.TmuxEnv) (query : String) (dims : List Core.Dimension) (n i : Nat)
    (hni : i < n) :
    List.countP (fun r => r.dimension_index == i)
      (((List.enumFrom n dims).map
        (fun p => Core.dimensionResults matcher env query p.1 p.2)).flatten) = 0 := by
  induction dims generalizing n with
  | nil => simp
  | cons d rest ih =>
    rw [List.enumFrom_cons, List.map_cons, List.flatten_cons, List.countP_append,
      ih (n + 1) (by omega)]
    have hhead : List.countP (fun r => r.dimension_index == i)
        (Core.dimensionResults matcher env query n d) = 0 := by
      rw [List.countP_eq_zero]
      intro r hr
      have := dim_index_of_mem_dimensionResults matcher env query n d r hr
      simp [this]
      omega
    rw [hhead]

/-- The count of results carrying dimension index `i` in the flattened
chunks equals the count inside dimension `i`'s own chunk. -/
theorem countP_dim_flatten (matcher : String → String → Option Int) (env : Core.TmuxEnv)
    (query : String) (dims : List Core.Dimension) (n i : Nat) (hni : n ≤ i)
    (hlt : i - n < dims.length) :
    List.countP (fun r => r.dimension_index == i)
      (((List.enumFrom n dims).map
        (fun p => Core.dimensionResults matcher env query p.1 p.2)).flatten) =
    List.countP (fun r => r.dimension_index == i)
      (Core.dimensionResults matcher env query i dims[i - n]) := by
  induction dims generalizing n with
  | nil => simp at hlt
  | cons d rest ih =>
    rw [List.enumFrom_cons, List.map_cons, List.flatten_cons, List.countP_append]
    by_cases hn : n = i
    · subst hn
      rw [countP_dim_flatten_zero matcher env query rest (n + 1) n (by omega)]
      simp
    · have hhead : List.countP (fun r => r.dimension_index == i)
          (Core.dimensionResults matcher env query n d) = 0 := by
        rw [List.countP_eq_zero]
        intro r hr
        have := dim_index_of_mem_dimensionResults matcher env query n d r hr
        simp [this]
        omega
      have hlt' : i - (n + 1) < rest.length := by
        simp at hlt
        omega
      rw [hhead, Nat.zero_add, ih (n + 1) (by omega) hlt']
      have harith : i - n = (i - (n + 1)) + 1 := by omega
      simp only [harith, List.getElem_cons_succ]

/-- Claim C5: after every recomputing run of `compute_search_results` (the
query changed and is non-empty), the result list is sorted by
non-increasing score, and every dimension that matches the query but has an
empty effective tab set contributes exactly one synthetic placeholder
result — classified dimension-only, carrying the dimension's score. -/
theorem c5_sorted_and_synthetic (matcher : String → String → Option Int)
    (env : Core.TmuxEnv) (app : Core.App)
    (hq : app.search_query ≠ app.last_computed_query)
    (hne : app.search_query.isEmpty = false) :
    ((app.compute_search_results matcher env).search_results).Pairwise
        (fun a b => b.score ≤ a.score) ∧
    (∀ i dimension, app.config.dimensions.get? i = some dimension →
      (matcher dimension.name app.search_query).isSome →
      Core.effectiveTabs env dimension = [] →
      (((app.compute_search_results matcher env).search_results).countP
          (fun r => r.dimension_index == i) = 1 ∧
       ∀ r ∈ (app.compute_search_results matcher env).search_results,
         r.dimension_index = i →
           r = Core.syntheticResult i dimension.name
             ((matcher dimension.name app.search_query).getD 0))) := by
  have hres : (app.compute_search_results matcher env).search_results =
      Core.computeResultsList matcher env app.config.dimensions app.search_query := by
    simp [Core.App.compute_search_results, hq, hne]
  constructor
  · rw [hres]
    have htrans : ∀ a b c : Core.SearchResult, Core.searchLe a b = true →
        Core.searchLe b c = true → Core.searchLe a c = true := by
      intro a b c hab hbc
      simp [Core.searchLe] at hab hbc ⊢
      omega
    have htotal : ∀ a b : Core.SearchResult,
        (Core.searchLe a b || Core.searchLe b a) = true := by
      intro a b
      simp [Core.searchLe]
      omega
    have hsorted := List.sorted_mergeSort htrans htotal
      (((app.config.dimensions.enum.map
        (fun p => Core.dimensionResults matcher env app.search_query p.1 p.2)).flatten))
    exact hsorted.imp (fun hab => by simpa [Core.searchLe] using hab)
  · intro i dimension hget hsome htabs
    obtain ⟨hi, hgi⟩ := List.get?_eq_some.mp hget
    rw [List.get_eq_getElem] at hgi
    have hcond : (Core.effectiveTabs env dimension).isEmpty ∧
        (matcher dimension.name app.search_query).isSome := by
      exact ⟨by rw [htabs]; rfl, hsome⟩
    have hchunk : Core.dimensionResults matcher env app.search_query i dimension =
        [Core.syntheticResult i dimension.name
          ((matcher dimension.name app.search_query).getD 0)] := by
      simp only [Core.dimensionResults]
      rw [if_pos hcond]
    constructor
    · rw [hres]
      unfold Core.computeResultsList
      rw [(List.mergeSort_perm _ Core.searchLe).countP_eq, List.enum_eq_enumFrom,
        countP_dim_flatten matcher env app.search_query app.config.dimensions 0 i
          (Nat.zero_le i) (by simpa using hi)]
      simp only [Nat.sub_zero, hgi, hchunk]
      simp [Core.syntheticResult]
    · intro r hrmem hdimidx
      rw [hres] at hrmem
      unfold Core.computeResultsList at hrmem
      have hrflat := ((List.mergeSort_perm _ Core.searchLe).mem_iff).mp hrmem
      rw [List.enum_eq_enumFrom] at hrflat
      obtain ⟨k, hk, hrk⟩ := (mem_flatten_enumFrom _ _ 0 r).mp hrflat
      have hkidx := dim_index_of_mem_dimensionResults matcher env app.search_query
        (0 + k) (app.config.dimensions[k]) r hrk
      have hki : k = i := by omega
      subst hki
      rw [Nat.zero_add] at hrk
      rw [hgi] at hrk
      rw [hchunk] at hrk
      exact List.mem_singleton.mp hrk

/-- Claim C5, witness: query `wrk` against dimensions `work` and
`personal`, both with no tabs, where only `work` matches: the recomputed
list is sorted and holds exactly one result for `work`. -/
theorem c5_sorted_and_synthetic_witness :
    ((({ Core.mkApp { dimensions := [Core.dimWork [],
          { name := "personal", configured_tabs := [], base_dir := none }] } with
        search_query := "wrk" }).compute_search_results
        (fun name query => if query = "wrk" ∧ name = "work" then some 10 else none)
        Core.envNoTmux).search_results).Pairwise
      (fun a b : Core.SearchResult => b.score ≤ a.score) ∧
    ((({ Core.mkApp { dimensions := [Core.dimWork [],
          { name := "personal", configured_tabs := [], base_dir := none }] } with
        search_query := "wrk" }).compute_search_results
        (fun name query => if query = "wrk" ∧ name = "work" then some 10 else none)
        Core.envNoTmux).search_results).countP
      (fun r : Core.SearchResult => r.dimension_index == 0) = 1 := by
  have h := c5_sorted_and_synthetic
    (fun name query => if query = "wrk" ∧ name = "work" then some 10 else none)
    Core.envNoTmux
    { Core.mkApp { dimensions := [Core.dimWork [],
        { name := "personal", configured_tabs := [], base_dir := none }] } with
      search_query := "wrk" }
    (by decide) rfl
  exact ⟨h.1, (h.2 0 (Core.dimWork []) rfl (by decide) rfl).1⟩

/-- Characterization of an enumerate entry: the payload is the list element
at the entry's index. -/
theorem mem_enumFrom_get? {α : Type} (p : Nat × α) (n : Nat) (l : List α)
    (h : p ∈ List.enumFrom n l) : l.get? (p.1 - n) = some p.2 := by
  obtain ⟨p1, p2⟩ := p
  obtain ⟨h1, h2, h3⟩ := List.mem_enumFrom h
  have hb : p1 - n < l.length := by omega
  rw [List.get?_eq_get hb, List.get_eq_getElem]
  exact congrArg some h3.symm

/-- Claim C6: for a dimension with a non-empty effective tab set and any
tab in it, a recomputing run of `compute_search_results` emits a result for
that tab exactly when the dimension name or the tab name matches the
query — scored `d + t` as "both" when both match, `d` as "dimension-only"
when only the dimension matches, `t` as "tab-only" when only the tab
matches — and emits nothing for a tab where neither matches. -/
theorem c6_per_tab_results (matcher : String → String → Option Int) (env : Core.TmuxEnv)
    (app : Core.App)
    (hq : app.search_query ≠ app.last_computed_query)
    (hne : app.search_query.isEmpty = false)
    (i : Nat) (dimension : Core.Dimension)
    (hget : app.config.dimensions.get? i = some dimension)
    (t w : Nat) (tname : String)
    (ht : (Core.effectiveTabs env dimension).get? t = some (w, tname)) :
    (∀ ds ts, matcher dimension.name app.search_query = some ds →
      matcher tname app.search_query = some ts →
      ({ dimension_index := i, dimension_name := dimension.name, tab_index := t,
         tmux_window_index := w, tab_name := tname, score := ds + ts,
         match_type := Core.MatchType.Both } : Core.SearchResult) ∈
        (app.compute_search_results matcher env).search_results) ∧
    (∀ ds, matcher dimension.name app.search_query = some ds →
      matcher tname app.search_query = none →
      ({ dimension_index := i, dimension_name := dimension.name, tab_index := t,
         tmux_window_index := w, tab_name := tname, score := ds,
         match_type := Core.MatchType.DimensionOnly } : Core.SearchResult) ∈
        (app.compute_search_results matcher env).search_results) ∧
    (∀ ts, matcher dimension.name app.search_query = none →
      matcher tname app.search_query = some ts →
      ({ dimension_index := i, dimension_name := dimension.name, tab_index := t,
         tmux_window_index := w, tab_name := tname, score := ts,
         match_type := Core.MatchType.TabOnly } : Core.SearchResult) ∈
        (app.compute_search_results matcher env).search_results) ∧
    (matcher dimension.name app.search_query = none →
      matcher tname app.search_query = none →
      ∀ r ∈ (app.compute_search_results matcher env).search_results,
        ¬(r.dimension_index = i ∧ r.tab_index = t)) := by
  have hres : (app.compute_search_results matcher env).search_results =
      Core.computeResultsList matcher env app.config.dimensions app.search_query := by
    simp [Core.App.compute_search_results, hq, hne]
  obtain ⟨hi, hgi⟩ := List.get?_eq_some.mp hget
  rw [List.get_eq_getElem] at hgi
  obtain ⟨htl, htg⟩ := List.get?_eq_some.mp ht
  rw [List.get_eq_getElem] at htg
  have hEmpty : (Core.effectiveTabs env dimension).isEmpty = false := by
    cases h : Core.effectiveTabs env dimension with
    | nil => rw [h] at htl; simp at htl
    | cons x rest => rfl
  have hcond : ¬((Core.effectiveTabs env dimension).isEmpty ∧
      (matcher dimension.name app.search_query).isSome) := by
    intro hc
    rw [hEmpty] at hc
    exact absurd hc.1 (by simp)
  have hchunk : Core.dimensionResults matcher env app.search_query i dimension =
      (Core.effectiveTabs env dimension).enum.filterMap
        (Core.tabResult matcher app.search_query i dimension.name
          (matcher dimension.name app.search_query)) := by
    simp only [Core.dimensionResults]
    rw [if_neg hcond]
  have hmem_intro : ∀ r : Core.SearchResult,
      Core.tabResult matcher app.search_query i dimension.name
        (matcher dimension.name app.search_query) (t, (w, tname)) = some r →
      r ∈ (app.compute_search_results matcher env).search_results := by
    intro r htr
    rw [hres]
    unfold Core.computeResultsList
    rw [(List.mergeSort_perm _ Core.searchLe).mem_iff, List.enum_eq_enumFrom]
    refine (mem_flatten_enumFrom _ _ 0 r).mpr ⟨i, by simpa using hi, ?_⟩
    rw [Nat.zero_add, hgi, hchunk]
    refine List.mem_filterMap.mpr ⟨(t, (w, tname)), ?_, htr⟩
    rw [List.enum_eq_enumFrom]
    have hmem := enumFrom_mem_intro (Core.effectiveTabs env dimension) 0 t htl
    rw [Nat.zero_add, htg] at hmem
    exact hmem
  refine ⟨?_, ?_, ?_, ?_⟩
  · intro ds ts hds hts
    refine hmem_intro _ ?_
    rw [hds]
    simp [Core.tabResult, hts]
  · intro ds hds hts
    refine hmem_intro _ ?_
    rw [hds]
    simp [Core.tabResult, hts]
  · intro ts hds hts
    refine hmem_intro _ ?_
    rw [hds]
    simp [Core.tabResult, hts]
  · intro hds hts r hrmem hcontra
    rw [hres] at hrmem
    unfold Core.computeResultsList at hrmem
    have hrflat := ((List.mergeSort_perm _ Core.searchLe).mem_iff).mp hrmem
    rw [List.enum_eq_enumFrom] at hrflat
    obtain ⟨k, hk, hrk⟩ := (mem_flatten_enumFrom _ _ 0 r).mp hrflat
    have hkidx := dim_index_of_mem_dimensionResults matcher env app.search_query
      (0 + k) (app.config.dimensions[k]) r hrk
    have hki : k = i := by
      have := hcontra.1
      omega
    subst hki
    rw [Nat.zero_add] at hrk
    rw [hgi, hchunk] at hrk
    obtain ⟨p, hp, hfp⟩ := List.mem_filterMap.mp hrk
    obtain ⟨p1, p2⟩ := p
    have hproj := tabResult_eq_some matcher app.search_query _ dimension.name
      (matcher dimension.name app.search_query) (p1, p2) r hfp
    have hp1 : p1 = t := by
      have h1 := hproj.2.1
      have h2 := hcontra.2
      simp at h1
      omega
    subst hp1
    rw [List.enum_eq_enumFrom] at hp
    have hp2q := mem_enumFrom_get? (p1, p2) 0 (Core.effectiveTabs env dimension) hp
    simp only [Nat.sub_zero] at hp2q
    rw [ht] at hp2q
    have hp2 : p2 = (w, tname) := (Option.some.inj hp2q).symm
    subst hp2
    rw [hds] at hfp
    simp [Core.tabResult, hts] at hfp

/-- Claim C6, witness: query `wrk` against dimension `work` with configured
tabs `a` and `b`; the dimension matches, the tab does not, so tab `a`
yields a dimension-only result carrying the dimension's score. -/
theorem c6_per_tab_results_witness :
    ({ dimension_index := 0, dimension_name := "work", tab_index := 0,
       tmux_window_index := 0, tab_name := "a", score := 10,
       match_type := Core.MatchType.DimensionOnly } : Core.SearchResult) ∈
      (({ Core.mkApp
          { dimensions := [Core.dimWork [Core.plainTab "a", Core.plainTab "b"]] } with
        search_query := "wrk" }).compute_search_results
        (fun name query => if query = "wrk" ∧ name = "work" then some 10 else none)
        Core.envNoTmux).search_results :=
  (c6_per_tab_results
    (fun name query => if query = "wrk" ∧ name = "work" then some 10 else none)
    Core.envNoTmux
    { Core.mkApp
        { dimensions := [Core.dimWork [Core.plainTab "a", Core.plainTab "b"]] } with
      search_query := "wrk" }
    (by decide) rfl 0 (Core.dimWork [Core.plainTab "a", Core.plainTab "b"]) rfl
    0 0 "a" rfl).2.1 10 (by decide) (by decide)
